import Mathlib

/-!
# Verification of the monny process-supervisor agent

Shallow embedding, in Lean 4, of the parts of the monny source tree
(`github.com/BTBurke/monny`) that the specification claims speak about:

* `pkg/fsm`        — the generic finite state machine (`transition.go`, `options.go`);
* `pkg/metric`     — the ring-buffer `Series` (`series.go`) and the
                     `Counter`/`WindowedCounter` pair (`counter.go`);
* `pkg/stat`       — the EWMA `TestStatistic` and its estimator FSM
                     (`estimator.go`, `state.go`);
* `monitor`        — the supervisor handlers (`handlers.go`), the history
                     buffers of `command.go` and `calcAlertRate` of `report.go`.

Modelling conventions:

* Go `float64` values carried by the metric/stat layer are modelled as `ℚ`.
  None of the verified properties depend on floating-point rounding; the
  operations that have no rational counterpart (`math.Log`, `math.Sqrt`,
  `K.Calculate`) are modelled as abstract function parameters or `Option`
  results, mirroring the fact that the Go code consumes them through the
  `PDF` interface or checks their results for NaN/Inf.
* `time.Time` and `time.Duration` are modelled as `Int` (nanosecond counts);
  `time.Now()` becomes an explicit `now` argument threaded through the
  functions that call it.
* Go slices backing fixed arrays are `List`s; an out-of-range slice
  expression (a Go panic) is modelled by returning `none`.
* Asynchronous report sends (`go c.report.Send(c, reason)`) are modelled by
  recording the dispatched `ReportReason` values, in program order, in a
  list returned next to the mutated state.
-/

set_option autoImplicit false

namespace Monny

/-! ## `pkg/fsm`: finite state machine

From `transition.go`, `options.go`, `errors.go` and the package main file.
`State` is a string type.  The Go `Machine` keeps the allowable transitions
in a `map[State][]State` built by appending every declared edge; membership
in that map is equivalent to membership in the flat edge list, which is what
the model stores. -/

namespace Fsm

/-- `type State string` — a possible transition state for the FSM. -/
abbrev State := String

/-- The error results of `Machine.transition`: `TransitionNotAllowed` (edge
absent from the graph) and `StopError` (machine latched in the stopped state),
from `errors.go`. The `Msg` payloads are irrelevant to control flow and are
not modelled. -/
inductive Err where
  | transitionNotAllowed
  | stopError
deriving DecidableEq, Repr

/-- `Machine` is the basic finite state machine of `transition.go` together
with its embedded `stoppable` option record (`options.go`):
`current`, `initial`, the transition graph, and the two `stoppable` fields
`stopOnError` (set by `WithStoppable`) and `stopped`. -/
structure Machine where
  current : State
  initial : State
  edges : List (State × State)
  stopOnError : Bool
  stopped : Bool
deriving DecidableEq, Repr

/-- `Machine.Allowable(from, to)`: `contains(to, m.allowable[from])`. -/
def Machine.allowable (m : Machine) (src dst : State) : Bool :=
  m.edges.contains (src, dst)

/-- `NewMachine(initial, WithTransitions(edges...))`, optionally with
`WithStoppable()`. -/
def newMachine (initial : State) (edges : List (State × State))
    (stopOnError : Bool) : Machine :=
  { current := initial, initial := initial, edges := edges,
    stopOnError := stopOnError, stopped := false }

/-- `Machine.Transition(to)` = `m.transition(to, m.stoppable)`:
first the `stoppable.ok()` guard (which errors with `StopError` only when
`stopOnError && stopped`), then the allowability check.  A disallowed
transition leaves `current` unchanged, sets `stopped` and returns
`TransitionNotAllowed`. -/
def Machine.transition (m : Machine) (dst : State) : Machine × Option Err :=
  if m.stopOnError && m.stopped then
    ({ m with stopped := true }, some .stopError)
  else if m.allowable m.current dst then
    ({ m with current := dst }, none)
  else
    ({ m with stopped := true }, some .transitionNotAllowed)

/-- `Machine.Reset()`: return to the initial state and clear the stopped
flag. -/
def Machine.resetMachine (m : Machine) : Machine :=
  { m with current := m.initial, stopped := false }

end Fsm

/-! ## `pkg/metric`: ring-buffer series (series.go)

`Series` stores a backing array `values` of fixed length (the capacity,
allocated by `NewSeries` as `make([]float64, cap)`, i.e. zero-filled) and a
monotonic observation `count`.  Observations are modelled as `ℚ`. -/

namespace Metric

/-- `type Series struct { name Name; count int; values []float64 }`; the
`name` field plays no role in the verified claims and is omitted. -/
structure Series where
  count : Nat
  values : List ℚ
deriving Repr, DecidableEq

/-- `Series.nextIndex`: the index of the oldest observation, to be
overwritten by new data — `int(math.Mod(float64(s.count), float64(cap)))`,
with a guard returning 0 for an empty backing array. -/
def Series.nextIndex (s : Series) : Nat :=
  if s.values.length = 0 then 0 else s.count % s.values.length

/-- `Series.Record(p)`: write at `nextIndex` and increment `count`; a series
with an empty backing array ignores the observation. -/
def Series.record (s : Series) (p : ℚ) : Series :=
  if s.values.length = 0 then s
  else { count := s.count + 1, values := s.values.set s.nextIndex p }

/-- `Series.Values()`: a copy of the values in temporal order — the whole
backing array while `count < len(values)`, otherwise
`values[oldest:] ++ values[0:oldest]`. -/
def Series.Values (s : Series) : List ℚ :=
  if s.count < s.values.length then s.values
  else s.values.drop s.nextIndex ++ s.values.take s.nextIndex

/-- `Series.Count()`. -/
def Series.Count (s : Series) : Nat :=
  s.count

/-- Modelled from the spec: `Series.Capacity()` is called by
`TestStatistic.Record` (estimator.go) but its implementation is not part of
the source snapshot.  Per the spec the series is a "fixed-capacity ring"
whose backing array has exactly `capacity` cells, so the capacity is the
length of the backing array. -/
def Series.Capacity (s : Series) : Nat :=
  s.values.length

/-- Modelled from the spec: `Series.Reset()` ("`reset()` empties") is called
by `TestStatistic.Record` but its implementation is not part of the source
snapshot.  Emptying restores the freshly-allocated state: zeroed backing
array, zero count. -/
def Series.resetSeries (s : Series) : Series :=
  { count := 0, values := List.replicate s.values.length 0 }

/-- `NewSeries(cap)`: fails for `cap <= 0`, otherwise a zeroed backing array
of length `cap` (non-positive `int` capacities are represented by `cap = 0`). -/
def newSeries (cap : Nat) : Option Series :=
  if cap = 0 then none
  else some { count := 0, values := List.replicate cap 0 }

/-- Recording a whole observation sequence in order (`record*(s)` in the
spec's property). -/
def recordAll (s : Series) (xs : List ℚ) : Series :=
  xs.foldl Series.record s

end Metric

/-! ## `monitor/command.go`: stdout/stderr history buffers -/

namespace Monitor

/-- The history-update step of `Command.processStdout` / `processStderr`
(command.go): with `history := len(buffer)`, if `history >= capacity` the
new buffer is `append(buffer[2:], line)`, otherwise `append(buffer, line)`.
In Go, `buffer[2:]` panics when the slice capacity is below two (modelled
as `none`); for buffers grown element-by-element from `nil`, slice capacity
equals the length in every state in which the eviction branch can fire with
fewer than two elements, so testing the length models the Go bounds check
faithfully for all states reachable from an empty history. -/
def processLine (capacity : Nat) (buffer : List String) (line : String) :
    Option (List String) :=
  if buffer.length ≥ capacity then
    if buffer.length < 2 then none
    else some (buffer.drop 2 ++ [line])
  else some (buffer ++ [line])

/-- Processing a stream of scanned lines in order, propagating a panic. -/
def processLines (capacity : Nat) (buffer : List String) :
    List String → Option (List String)
  | [] => some buffer
  | l :: ls =>
    match processLine capacity buffer l with
    | none => none
    | some b => processLines capacity b ls

/-! ## `proto` enums, the `Command` record and the supervisor handlers

From `pkg/proto/enum.go`, `monitor/command.go` and `monitor/handlers.go`.
`unset` stands for the Go zero value (0) of each enum. -/

/-- `KillReason ∈ {Timeout=1, Memory=2, Signal=3}`. -/
inductive KillReason where
  | unset
  | timeout
  | memory
  | signal
deriving DecidableEq, Repr

/-- `ReportReason ∈ {Success=1, Failure=2, Alert=3, AlertRate=4,
MemoryWarning=5, TimeWarning=6, FileNotCreated=7, Killed=8, Start=9}`. -/
inductive ReportReason where
  | unset
  | success
  | failure
  | alert
  | alertRate
  | memoryWarning
  | timeWarning
  | fileNotCreated
  | killed
  | start
deriving DecidableEq, Repr

/-- `File` (command.go): an artifact produced by the process. -/
structure File where
  path : String
  size : Int
  time : Int
deriving DecidableEq, Repr

/-- `RuleMatch` (command.go): a regular-expression match on an output line.
The `Index` ranges are opaque to the verified functions. -/
structure RuleMatch where
  time : Int
  line : String
  index : List (List Int)
deriving DecidableEq, Repr

/-- The subset of `Config` (config.go) read by the embedded handlers. -/
structure Config where
  creates : List String
deriving DecidableEq, Repr

/-- The subset of the `Command` record (command.go) mutated by the embedded
handlers.  Times and durations are `Int` nanosecond counts. -/
structure Command where
  config : Config
  success : Bool
  ruleMatches : List RuleMatch
  killed : Bool
  killReason : KillReason
  created : List File
  reportReason : ReportReason
  start : Int
  finish : Int
  duration : Int
  exitCode : Int
  exitCodeValid : Bool
  messages : List String
deriving DecidableEq, Repr

/-- The zero-value `Command` produced by `New` (all modelled fields at their
Go zero values), used as a concrete evaluation input. -/
def zeroCommand : Command :=
  { config := ⟨[]⟩, success := false, ruleMatches := [], killed := false,
    killReason := .unset, created := [], reportReason := .unset,
    start := 0, finish := 0, duration := 0, exitCode := 0,
    exitCodeValid := false, messages := [] }

/-- Result of `os.Stat(f)` as discriminated by `handleFileCreation`:
the file exists (`found`), `os.IsNotExist(err)` holds (`notExist`), or some
other stat error occurred (`otherError`). -/
inductive StatResult where
  | found (info : File)
  | notExist
  | otherError
deriving DecidableEq, Repr

/-- `os.IsNotExist(err)` on a stat result. -/
def StatResult.isNotExist : StatResult → Bool
  | .notExist => true
  | _ => false

/-- `handleFileCreation` (handlers.go): for each configured `creates` path,
a missing file marks the command unsuccessful, appends a message, sets the
report reason and dispatches one `FileNotCreated` report; an existing file
is recorded as a created artifact; any other stat error is skipped.
The filesystem is modelled as a pure `String → StatResult` snapshot. -/
def handleFileCreationLoop (fs : String → StatResult) (c : Command) :
    List String → Command × List ReportReason
  | [] => (c, [])
  | f :: rest =>
    match fs f with
    | .notExist =>
      let c1 := { c with
                  success := false
                  messages := c.messages ++ ["file not created: " ++ f]
                  reportReason := .fileNotCreated }
      let (c2, ds) := handleFileCreationLoop fs c1 rest
      (c2, ReportReason.fileNotCreated :: ds)
    | .found info =>
      handleFileCreationLoop fs
        { c with created := c.created ++ [⟨info.path, info.size, info.time⟩] }
        rest
    | .otherError => handleFileCreationLoop fs c rest

/-- `handleFileCreation(c)` iterates over `c.Config.Creates`. -/
def handleFileCreation (fs : String → StatResult) (c : Command) :
    Command × List ReportReason :=
  handleFileCreationLoop fs c c.config.creates

/-- `handler.Finished` (handlers.go): record finish time and duration
(`Finish.Sub(Start)`), set success/exit-code state from the child's exit
status and dispatch `Success` or `Failure` accordingly, then run
`handleFileCreation`.  `exitSuccess` models `cmd.ProcessState.Success()`;
`waitStatus` models the `syscall.WaitStatus` downcast (`none` when the cast
fails).  The returned list holds every `report.Send` reason in program
order. -/
def finished (fs : String → StatResult) (c : Command) (exitSuccess : Bool)
    (waitStatus : Option Int) (now : Int) : Command × List ReportReason :=
  let c1 := { c with finish := now, duration := now - c.start }
  let step :=
    if exitSuccess then
      ({ c1 with
          success := true
          exitCodeValid := true
          reportReason := .success }, [ReportReason.success])
    else
      let c1a := match waitStatus with
        | some code => { c1 with exitCode := code, exitCodeValid := true }
        | none => c1
      ({ c1a with reportReason := .failure, success := false },
        [ReportReason.failure])
  let after := handleFileCreation fs step.1
  (after.1, step.2 ++ after.2)

/-- `handler.Timeout` (handlers.go): mark the command killed with
`KillReason = Timeout`, record the finish time, set
`Duration = Start.Sub(Finish)` — exactly as written in the source — set the
report reason and dispatch one `Killed` report. -/
def timeoutHandler (c : Command) (now : Int) : Command × List ReportReason :=
  ({ c with
      killed := true
      killReason := .timeout
      finish := now
      duration := c.start - now
      reportReason := .killed },
    [ReportReason.killed])

/-- `calcAlertRate` (report.go): when `period > 0`, count the matches whose
timestamp lies within `period` of `now` (`now.Sub(match.Time) <= period`);
otherwise count every match; the result is `count >= quantity`. -/
def calcAlertRate (ms : List RuleMatch) (quantity : Int) (period : Int)
    (now : Int) : Bool :=
  let matchesInPeriod : Int :=
    if period > 0 then
      (ms.countP (fun m => decide (now - m.time ≤ period)) : Int)
    else (ms.length : Int)
  if matchesInPeriod ≥ quantity then true else false

end Monitor

/-! ## `pkg/metric`: counters (counter.go) -/

namespace Metric

/-- `Counter` (counter.go): `(start, duration, value)`; `Add` increases the
value by an unsigned increment. -/
structure Counter where
  start : Int
  duration : Int
  value : Int
deriving DecidableEq, Repr

/-- `Counter.Add(i)` (`i` is a Go `uint`). -/
def Counter.add (c : Counter) (i : Nat) : Counter :=
  { c with value := c.value + i }

/-- `WindowedCounter` (counter.go): a history of closed windows plus the
current window's counter. -/
structure WindowedCounter where
  hist : List Counter
  current : Counter
deriving DecidableEq, Repr

/-- `WindowedCounter.Add(i)` (counter.go): while `now` is before the end of
the current window (or the duration is zero), increment the current
counter; otherwise rotate the current counter into history and start a new
window of the same duration whose first increment is this one.
`time.Now()` is modelled by the explicit `now` argument. -/
def WindowedCounter.add (c : WindowedCounter) (now : Int) (i : Nat) :
    WindowedCounter :=
  let e := c.current.start + c.current.duration
  if now < e ∨ c.current.duration = 0 then
    { c with current := c.current.add i }
  else
    { hist := c.hist ++ [c.current],
      current := Counter.add ⟨now, c.current.duration, 0⟩ i }

/-- `NewWindowedCounter(duration)` started at time `now`. -/
def newWindowedCounter (now : Int) (duration : Int) : WindowedCounter :=
  { hist := [], current := { start := now, duration := duration, value := 0 } }

/-- Running a timestamped sequence of `Add` operations. -/
def runWindowed (c : WindowedCounter) (ops : List (Int × Nat)) :
    WindowedCounter :=
  ops.foldl (fun c op => c.add op.1 op.2) c

/-- Verification instrumentation (not part of the source): a
`WindowedCounter` paired with ghost observation counts — one per recorded
history window (`histObs`, aligned with `hist`) and one for the current
window (`curObs`).  The `wc` component evolves exactly by the source
`WindowedCounter.add`; the ghost components only count how many `Add` calls
each window received. -/
structure GhostWC where
  wc : WindowedCounter
  histObs : List Nat
  curObs : Nat
deriving DecidableEq, Repr

/-- One instrumented `Add`: the counter state moves by the source `add`;
the ghost count of the window that receives the observation is
incremented, and on rotation the closed window's count is pushed next to
it in history. -/
def GhostWC.add (g : GhostWC) (now : Int) (i : Nat) : GhostWC :=
  let e := g.wc.current.start + g.wc.current.duration
  if now < e ∨ g.wc.current.duration = 0 then
    { wc := g.wc.add now i, histObs := g.histObs, curObs := g.curObs + 1 }
  else
    { wc := g.wc.add now i, histObs := g.histObs ++ [g.curObs], curObs := 1 }

/-- Running a timestamped sequence of instrumented `Add` operations. -/
def runGhost (g : GhostWC) (ops : List (Int × Nat)) : GhostWC :=
  ops.foldl (fun g op => g.add op.1 op.2) g

end Metric

/-! ## `pkg/stat`: the EWMA test statistic (estimator.go, state.go, k.go)

`TestStatistic` consumes its series through the `metric.SeriesRecorder`
interface and its distribution through the `PDF` interface; both are
modelled as explicit records of operations, so the embedded `Record` is
generic exactly where the Go code is.  `math.Sqrt` (used only inside
`calculateLimit`) is an abstract function parameter, and `K.Calculate()`
(which involves `math.Log`) is modelled by its outcome: `some k` on
success, `none` for the NaN/Inf error, with the source's `5.7` fallback
applied in `calculateLimit`. -/

namespace Stat

/-- The estimator states (state.go). -/
def Reset : Fsm.State := "reset"

/-- `ucl_initial` (state.go). -/
def UCLInitial : Fsm.State := "ucl_initial"

/-- `testing_ucl` (state.go). -/
def TestingUCL : Fsm.State := "testing_ucl"

/-- `ucl_trip` (state.go). -/
def UCLTrip : Fsm.State := "ucl_trip"

/-- `lcl_initial` (state.go). -/
def LCLInitial : Fsm.State := "lcl_initial"

/-- `testing_lcl` (state.go). -/
def TestingLCL : Fsm.State := "testing_lcl"

/-- `lcl_trip` (state.go). -/
def LCLTrip : Fsm.State := "lcl_trip"

/-- The estimator transition graph of `newMachine` (state.go). -/
def estimatorEdges : List (Fsm.State × Fsm.State) :=
  [(Reset, UCLInitial), (Reset, LCLInitial),
   (UCLInitial, TestingUCL), (UCLInitial, Reset),
   (TestingUCL, UCLTrip), (TestingUCL, Reset),
   (UCLTrip, LCLInitial), (UCLTrip, Reset),
   (LCLInitial, TestingLCL), (LCLInitial, Reset),
   (TestingLCL, LCLTrip), (TestingLCL, Reset),
   (LCLTrip, Reset)]

/-- The estimator machine of `newMachine(UCLInitial)` (no options beyond
the transition graph), possibly after having moved to state `s`. -/
def estMachineAt (s : Fsm.State) : Fsm.Machine :=
  { current := s, initial := UCLInitial, edges := estimatorEdges,
    stopOnError := false, stopped := false }

/-- The `metric.SeriesRecorder` interface as consumed by `TestStatistic`
(estimator.go calls `Record`, `Count`, `Capacity`, `Values`, `Reset`);
the interface declaration itself is not part of the source snapshot, so the
method set is taken from these call sites. -/
structure SeriesRecorder (σ : Type) where
  record : σ → ℚ → σ
  count : σ → Nat
  capacity : σ → Nat
  values : σ → List ℚ
  reset : σ → σ

/-- `metric.Series` implements `SeriesRecorder`
(`var _ SeriesRecorder = &SampledSeries{}` names the interface; the plain
`Series` is returned by `LogNormal.NewSeries`). -/
def seriesRecorder : SeriesRecorder Metric.Series :=
  { record := Metric.Series.record, count := Metric.Series.Count,
    capacity := Metric.Series.Capacity, values := Metric.Series.Values,
    reset := Metric.Series.resetSeries }

/-- The `PDF` interface operations used by `TestStatistic.Record`
(pdf.go): the observation transform — `none` models a NaN/±Inf float
result, which the Go code checks with `math.IsNaN`/`math.IsInf` — and the
MLE mean and variance.  `NewSeries`, `Done` and `String` are not used by
the verified code paths. -/
structure PDF where
  transform : ℚ → Option ℚ
  mean : List ℚ → ℚ
  variance : List ℚ → ℚ → ℚ

/-- `K` (k.go) via the outcome of `Calculate()`: `some k`, or `none` for
the NaN/Inf error case. -/
structure K where
  calculate : Option ℚ

/-- `calculateLimit` (estimator.go): steady-state EWMA variance
`(λ/(2−λ))·σ²`, the `k` multiplier with the `5.7` fallback on a failed
`Calculate`, and the one-sided limit `μ ± k·√σ²ₑ` (direction `+1` for the
UCL, `−1` for the LCL). -/
def calculateLimit (sqrt : ℚ → ℚ) (mean variance lambda : ℚ) (k : K)
    (direction : Int) : ℚ :=
  let estimatorVariance := (lambda / (2 - lambda)) * variance
  let kc := k.calculate.getD (57 / 10)
  if direction ≥ 0 then mean + kc * sqrt estimatorVariance
  else mean - kc * sqrt estimatorVariance

/-- `TestStatistic` (estimator.go); the `name` field and the `pdf` handle
are irrelevant to state evolution (the `PDF` operations are passed to
`record` explicitly, mirroring interface dispatch). -/
structure TestStatistic (σ : Type) where
  lambda : ℚ
  k : K
  limit : ℚ
  series : σ
  fsm : Fsm.Machine
  current : ℚ

/-- Errors of `TestStatistic.Record`: the `transform(value) is not defined`
error, or an FSM transition error bubbled up. -/
inductive RecordErr where
  | undefinedTransform
  | fsm (e : Fsm.Err)
deriving DecidableEq, Repr

/-- The `TestingUCL` case body of `Record` (also reached from `Reset` by
fallthrough): update the EWMA `current`, and on `current ≥ limit`
transition to `UCLTrip`. -/
def testingUCLStep {σ : Type} (e : TestStatistic σ) (o : ℚ) :
    TestStatistic σ × Option RecordErr :=
  let cur := e.lambda * o + (1 - e.lambda) * e.current
  let e1 := { e with current := cur }
  if cur ≥ e1.limit then
    let t := e1.fsm.transition UCLTrip
    ({ e1 with fsm := t.1 }, t.2.map .fsm)
  else (e1, none)

/-- The `TestingLCL` case body of `Record`: update the EWMA `current`, and
on `current ≤ limit` transition to `LCLTrip`. -/
def testingLCLStep {σ : Type} (e : TestStatistic σ) (o : ℚ) :
    TestStatistic σ × Option RecordErr :=
  let cur := e.lambda * o + (1 - e.lambda) * e.current
  let e1 := { e with current := cur }
  if cur ≤ e1.limit then
    let t := e1.fsm.transition LCLTrip
    ({ e1 with fsm := t.1 }, t.2.map .fsm)
  else (e1, none)

/-- The `UCLInitial` case body of `Record`: once the series holds at least
capacity-many observations and both MLE mean and variance are strictly
positive, transition to `TestingUCL`, seed `current` with the mean and
publish the upper control limit. -/
def uclInitialStep {σ : Type} (sr : SeriesRecorder σ) (pdf : PDF)
    (sqrt : ℚ → ℚ) (e : TestStatistic σ) :
    TestStatistic σ × Option RecordErr :=
  if sr.count e.series ≥ sr.capacity e.series then
    let values := sr.values e.series
    let mean := pdf.mean values
    let variance := pdf.variance values mean
    if mean > 0 ∧ variance > 0 then
      let t := e.fsm.transition TestingUCL
      match t.2 with
      | some er => ({ e with fsm := t.1 }, some (.fsm er))
      | none =>
        ({ e with
            fsm := t.1
            current := mean
            limit := calculateLimit sqrt mean variance e.lambda e.k 1 }, none)
    else (e, none)
  else (e, none)

/-- The `LCLInitial` case body of `Record`, symmetric with direction `−1`. -/
def lclInitialStep {σ : Type} (sr : SeriesRecorder σ) (pdf : PDF)
    (sqrt : ℚ → ℚ) (e : TestStatistic σ) :
    TestStatistic σ × Option RecordErr :=
  if sr.count e.series ≥ sr.capacity e.series then
    let values := sr.values e.series
    let mean := pdf.mean values
    let variance := pdf.variance values mean
    if mean > 0 ∧ variance > 0 then
      let t := e.fsm.transition TestingLCL
      match t.2 with
      | some er => ({ e with fsm := t.1 }, some (.fsm er))
      | none =>
        ({ e with
            fsm := t.1
            current := mean
            limit := calculateLimit sqrt mean variance e.lambda e.k (-1) },
          none)
    else (e, none)
  else (e, none)

/-- `TestStatistic.Record(o)` (estimator.go): transform the observation
(failing on NaN/Inf), append it to the series, then branch on the FSM
state: `Reset` re-initialises and falls through to the `TestingUCL` body;
`TestingUCL`/`TestingLCL` update the EWMA and trip on limit crossings;
`UCLInitial`/`LCLInitial` bootstrap; the trip states are no-ops. -/
def record {σ : Type} (sr : SeriesRecorder σ) (pdf : PDF) (sqrt : ℚ → ℚ)
    (e : TestStatistic σ) (oRaw : ℚ) : TestStatistic σ × Option RecordErr :=
  match pdf.transform oRaw with
  | none => (e, some .undefinedTransform)
  | some o =>
    let e1 := { e with series := sr.record e.series o }
    if e1.fsm.current = Reset then
      let t := e1.fsm.transition UCLInitial
      match t.2 with
      | some er => ({ e1 with fsm := t.1 }, some (.fsm er))
      | none =>
        let e2 := { e1 with fsm := t.1 }
        let e3 :=
          if sr.count e2.series > 0 then
            { e2 with series := sr.record (sr.reset e2.series) o }
          else e2
        testingUCLStep e3 o
    else if e1.fsm.current = TestingUCL then testingUCLStep e1 o
    else if e1.fsm.current = TestingLCL then testingLCLStep e1 o
    else if e1.fsm.current = UCLInitial then uclInitialStep sr pdf sqrt e1
    else if e1.fsm.current = LCLInitial then lclInitialStep sr pdf sqrt e1
    else (e1, none)

/-- `TestStatistic.HasAlarmed()` (estimator.go): state is `UCLTrip` or
`LCLTrip`. -/
def HasAlarmed {σ : Type} (e : TestStatistic σ) : Bool :=
  decide (e.fsm.current = UCLTrip ∨ e.fsm.current = LCLTrip)

/-- Recording a sequence of observations, discarding per-call errors (as a
caller that keeps feeding the estimator would). -/
def recordMany {σ : Type} (sr : SeriesRecorder σ) (pdf : PDF)
    (sqrt : ℚ → ℚ) (e : TestStatistic σ) (os : List ℚ) : TestStatistic σ :=
  os.foldl (fun e o => (record sr pdf sqrt e o).1) e

end Stat

end Monny

namespace Monny

/-! ### Claim C9 -/

/-- C9: for a state machine constructed without the stoppable option, a
`Transition(to)` whose edge is absent from the transition graph returns
`TransitionNotAllowed` and leaves the current state unchanged, and a
subsequent allowable transition from that same state still succeeds —
illegal attempts never latch a permanent failure on a non-stoppable
machine. -/
theorem fsm_illegal_transition_no_latch
    (m : Fsm.Machine) (bad good : Fsm.State)
    (hstop : m.stopOnError = false)
    (hbad : m.allowable m.current bad = false)
    (hgood : m.allowable m.current good = true) :
    (m.transition bad).2 = some .transitionNotAllowed ∧
    (m.transition bad).1.current = m.current ∧
    ((m.transition bad).1.transition good).2 = none ∧
    ((m.transition bad).1.transition good).1.current = good := by
  obtain ⟨cur, init, edges, so, st⟩ := m
  simp only at hstop
  subst hstop
  simp only [Fsm.Machine.allowable] at hbad hgood
  simp at hbad hgood
  simp [Fsm.Machine.transition, Fsm.Machine.allowable, hbad, hgood]

/-- Witness for C9 on a concrete two-state machine: from state `"a"`,
the edge to `"x"` is absent and the edge to `"b"` is present. -/
theorem fsm_illegal_transition_no_latch_witness :
    let m := Fsm.newMachine "a" [("a", "b")] false
    (m.transition "x").2 = some .transitionNotAllowed ∧
    (m.transition "x").1.current = "a" ∧
    ((m.transition "x").1.transition "b").2 = none ∧
    ((m.transition "x").1.transition "b").1.current = "b" := by
  exact fsm_illegal_transition_no_latch
    (Fsm.newMachine "a" [("a", "b")] false) "x" "b"
    (by decide) (by decide) (by decide)

/-! ### Claim C4: the ring-buffer `Series`

Helper lemmas characterising the backing array after recording an
observation sequence into a fresh series. -/

/-- A `Record` call never changes the length of the backing array. -/
theorem record_values_length (s : Metric.Series) (p : ℚ) :
    (s.record p).values.length = s.values.length := by
  unfold Metric.Series.record
  split <;> simp

/-- Recording a sequence never changes the length of the backing array. -/
theorem recordAll_values_length (xs : List ℚ) (s : Metric.Series) :
    (Metric.recordAll s xs).values.length = s.values.length := by
  induction xs generalizing s with
  | nil => rfl
  | cons x xs ih =>
    show (Metric.recordAll (s.record x) xs).values.length = _
    rw [ih, record_values_length]

/-- With a nonempty backing array, every recorded observation increments
`count` by one. -/
theorem recordAll_count (xs : List ℚ) (s : Metric.Series)
    (h : s.values.length ≠ 0) :
    (Metric.recordAll s xs).count = s.count + xs.length := by
  induction xs generalizing s with
  | nil => rfl
  | cons x xs ih =>
    show (Metric.recordAll (s.record x) xs).count = _
    rw [ih _ (by rw [record_values_length]; exact h)]
    unfold Metric.Series.record
    rw [if_neg h]
    simp
    omega

/-- Unfolding of `Record` on a series with a nonempty backing array. -/
theorem record_eq (s : Metric.Series) (p : ℚ) (h : s.values.length ≠ 0) :
    s.record p
      = { count := s.count + 1,
          values := s.values.set (s.count % s.values.length) p } := by
  unfold Metric.Series.record Metric.Series.nextIndex
  rw [if_neg h, if_neg h]

/-- Setting index 0 replaces the head of a nonempty list. -/
theorem set_zero_eq_cons_drop {α : Type} (l : List α) (x : α)
    (h : 0 < l.length) : l.set 0 x = x :: l.drop 1 := by
  cases l with
  | nil => simp at h
  | cons a as => simp

/-- Backing array of a fresh series of capacity `cap` after recording `xs`:
while underfull it is `xs` followed by the remaining zeros; once full it is
the last `cap` observations rotated so that the next write index
`|xs| % cap` points at the oldest one. -/
theorem recordAll_fresh_values (cap : Nat) (hcap : 0 < cap) (xs : List ℚ) :
    (Metric.recordAll ⟨0, List.replicate cap 0⟩ xs).values =
      if xs.length < cap then xs ++ List.replicate (cap - xs.length) 0
      else ((xs.drop (xs.length - cap)).drop (cap - xs.length % cap))
            ++ ((xs.drop (xs.length - cap)).take (cap - xs.length % cap)) := by
  induction xs using List.reverseRecOn with
  | nil => simp [Metric.recordAll, hcap]
  | append_singleton xs x ih =>
    have hlen : (Metric.recordAll ⟨0, List.replicate cap 0⟩ xs).values.length = cap := by
      rw [recordAll_values_length]; simp
    have hcount : (Metric.recordAll ⟨0, List.replicate cap 0⟩ xs).count = xs.length := by
      rw [recordAll_count xs _ (by simp; omega)]
      simp
    have hstep : Metric.recordAll ⟨0, List.replicate cap 0⟩ (xs ++ [x])
        = (Metric.recordAll ⟨0, List.replicate cap 0⟩ xs).record x := by
      simp [Metric.recordAll, List.foldl_append]
    rw [hstep, record_eq _ _ (by rw [hlen]; omega)]
    simp only [hcount, hlen]
    rw [ih]
    simp only [List.length_append, List.length_cons, List.length_nil,
      Nat.zero_add]
    set n := xs.length with hn
    by_cases hA : n < cap
    · -- the backing array was not yet full before this record
      rw [if_pos hA, Nat.mod_eq_of_lt hA,
        List.set_append_right n x (le_of_eq hn.symm),
        (by omega : n - xs.length = 0),
        (by omega : cap - n = (cap - n - 1) + 1),
        List.replicate_succ, List.set_cons_zero]
      by_cases hB : n + 1 < cap
      · rw [if_pos hB, (by omega : cap - (n + 1) = cap - n - 1)]
        simp
      · have hEq : cap = n + 1 := by omega
        subst hEq
        rw [if_neg hB, (by omega : n + 1 - (n + 1) = 0), List.drop_zero,
          (by omega : n + 1 - n - 1 = 0), List.replicate_zero]
        have h1 : (xs ++ [x]).length ≤ n + 1 := by simp [← hn]
        rw [Nat.mod_self, Nat.sub_zero,
          List.drop_eq_nil_of_le h1, List.take_of_length_le h1]
        simp
    · -- the backing array was already full
      have hB1 : ¬ (n + 1 < cap) := by omega
      rw [if_neg hA, if_neg hB1]
      set t := xs.drop (n - cap) with htdef
      set r := n % cap with hrdef
      have ht : t.length = cap := by
        rw [htdef, List.length_drop, ← hn]; omega
      have hr : r < cap := by rw [hrdef]; exact Nat.mod_lt _ hcap
      clear_value t r
      have hAlen : (t.drop (cap - r)).length = r := by
        rw [List.length_drop, ht]; omega
      rw [List.set_append_right r x (le_of_eq hAlen),
        (by rw [hAlen]; omega : r - (t.drop (cap - r)).length = 0),
        set_zero_eq_cons_drop _ _ (by rw [List.length_take, ht]; omega),
        List.drop_take]
      have ht' : (xs ++ [x]).drop (n + 1 - cap) = t.drop 1 ++ [x] := by
        rw [List.drop_append_of_le_length (by omega : n + 1 - cap ≤ xs.length)]
        congr 1
        rw [htdef, List.drop_drop]
        congr 1
        omega
      have h2 : (n + 1) % cap = (r + 1) % cap := by
        have h3 := (Nat.mod_modEq n cap).add_right 1
        rw [hrdef]
        exact h3.symm
      by_cases hC : r + 1 < cap
      · have hr' : (n + 1) % cap = r + 1 := by
          rw [h2]; exact Nat.mod_eq_of_lt hC
        rw [hr', ht',
          List.drop_append_of_le_length
            (by rw [List.length_drop, ht]; omega : cap - (r + 1) ≤ (t.drop 1).length),
          List.take_append_of_le_length
            (by rw [List.length_drop, ht]; omega : cap - (r + 1) ≤ (t.drop 1).length),
          List.drop_drop,
          (by omega : 1 + (cap - (r + 1)) = cap - r),
          (by omega : cap - (r + 1) = cap - r - 1)]
        simp
      · have hr' : (n + 1) % cap = 0 := by
          rw [h2, (by omega : r + 1 = cap), Nat.mod_self]
        have h1 : (t.drop 1 ++ [x]).length ≤ cap := by
          rw [List.length_append, List.length_drop, ht]; simp; omega
        rw [hr', ht', Nat.sub_zero, List.drop_eq_nil_of_le h1,
          List.take_of_length_le h1,
          (by omega : cap - r - 1 = 0),
          (by omega : cap - r = 1)]
        simp

/-- `Values()` of a fresh series after recording `xs`: the zero-padded
backing array while underfull, the last `cap` observations in
chronological order once full. -/
theorem recordAll_fresh_Values (cap : Nat) (hcap : 0 < cap) (xs : List ℚ) :
    (Metric.recordAll ⟨0, List.replicate cap 0⟩ xs).Values =
      if xs.length < cap then xs ++ List.replicate (cap - xs.length) 0
      else xs.drop (xs.length - cap) := by
  have hlen : (Metric.recordAll ⟨0, List.replicate cap 0⟩ xs).values.length = cap := by
    rw [recordAll_values_length]; simp
  have hcount : (Metric.recordAll ⟨0, List.replicate cap 0⟩ xs).count = xs.length := by
    rw [recordAll_count xs _ (by simp; omega)]
    simp
  unfold Metric.Series.Values Metric.Series.nextIndex
  rw [hlen, hcount, recordAll_fresh_values cap hcap xs]
  by_cases h : xs.length < cap
  · simp [h]
  · have ht : (xs.drop (xs.length - cap)).length = cap := by
      rw [List.length_drop]; omega
    have hAlen : ((xs.drop (xs.length - cap)).drop (cap - xs.length % cap)).length
        = xs.length % cap := by
      rw [List.length_drop, ht]
      have := Nat.mod_lt xs.length hcap
      omega
    rw [if_neg h, if_neg h, if_neg (by omega : ¬ cap = 0),
      List.drop_left' hAlen, List.take_left' hAlen, List.take_append_drop,
      if_neg h]

/-- C4 counterexample: recording the single observation `5` into a fresh
series of capacity 2 makes `Values()` return the zero-padded `[5, 0]`
(length 2), not the `last(min(|s|, capacity), s) = [5]` the claim
requires. -/
theorem series_values_pad_cex :
    (Metric.newSeries 2).map (fun s => (Metric.recordAll s [5]).Values)
      = some [(5 : ℚ), 0] ∧ ([(5 : ℚ), 0] : List ℚ) ≠ [(5 : ℚ)] := by
  constructor
  · rfl
  · decide

/-- C4 (amended): for every capacity > 0 and observation sequence `s`,
`Values()` after recording `s` into a fresh series returns exactly the last
`capacity` observations in oldest-to-newest order once `|s| ≥ capacity`;
while `|s| < capacity` it returns the recorded observations in order,
zero-padded to the capacity.  Its length always equals the capacity (in
particular it never exceeds it). -/
theorem series_values_amended (cap : Nat) (hcap : 0 < cap) (xs : List ℚ)
    (s : Metric.Series) (hs : Metric.newSeries cap = some s) :
    (Metric.recordAll s xs).Values
      = (if xs.length < cap then xs ++ List.replicate (cap - xs.length) 0
         else xs.drop (xs.length - cap)) ∧
    (Metric.recordAll s xs).Values.length = cap := by
  have hfresh : s = ⟨0, List.replicate cap 0⟩ := by
    unfold Metric.newSeries at hs
    rw [if_neg (by omega : ¬ cap = 0)] at hs
    exact (Option.some.inj hs).symm
  subst hfresh
  refine ⟨recordAll_fresh_Values cap hcap xs, ?_⟩
  rw [recordAll_fresh_Values cap hcap xs]
  by_cases h : xs.length < cap
  · rw [if_pos h, List.length_append, List.length_replicate]
    omega
  · rw [if_neg h, List.length_drop]
    omega

/-- Witness for C4's amended theorem: capacity 3, observations
`[1, 2, 3, 4, 5]`, `Values()` returns the last three in order. -/
theorem series_values_amended_witness :
    0 < 3 ∧
    (Metric.recordAll ⟨0, List.replicate 3 0⟩ [(1 : ℚ), 2, 3, 4, 5]).Values
      = [(3 : ℚ), 4, 5] := by
  refine ⟨by decide, ?_⟩
  have h := (series_values_amended 3 (by decide) [(1 : ℚ), 2, 3, 4, 5]
    ⟨0, List.replicate 3 0⟩ rfl).1
  rw [h]
  decide

end Monny

namespace Monny

/-! ### Claims C3 and C10: history buffers -/

/-- Appending the same list on the right preserves the suffix relation. -/
theorem isSuffix_append_same {α : Type} {s t : List α} (u : List α)
    (h : s <:+ t) : s ++ u <:+ t ++ u := by
  obtain ⟨v, rfl⟩ := h
  exact ⟨v, (List.append_assoc v s u).symm⟩

/-- Invariant of line processing for capacities of at least two: processing
never panics, the buffer length stays bounded by the capacity, and the
buffer is a suffix of the input seen so far. -/
theorem processLines_inv (capacity : Nat) (h2 : 2 ≤ capacity) :
    ∀ (lines : List String) (buffer : List String), buffer.length ≤ capacity →
      ∃ out, Monitor.processLines capacity buffer lines = some out ∧
        out.length ≤ capacity ∧ out <:+ buffer ++ lines := by
  intro lines
  induction lines with
  | nil =>
    intro buffer hb
    exact ⟨buffer, rfl, hb, by simp⟩
  | cons l ls ih =>
    intro buffer hb
    by_cases hov : capacity ≤ buffer.length
    · have hstep : Monitor.processLine capacity buffer l
          = some (buffer.drop 2 ++ [l]) := by
        unfold Monitor.processLine
        rw [if_pos hov, if_neg (by omega)]
      obtain ⟨out, hout, hlen, hsuf⟩ := ih (buffer.drop 2 ++ [l])
        (by rw [List.length_append, List.length_drop]; simp; omega)
      refine ⟨out, ?_, hlen, ?_⟩
      · show (match Monitor.processLine capacity buffer l with
          | none => none
          | some b => Monitor.processLines capacity b ls) = some out
        rw [hstep]
        exact hout
      · have hd : buffer.drop 2 ++ [l] <:+ buffer ++ [l] :=
          isSuffix_append_same [l] (List.drop_suffix 2 buffer)
      
        have h3 : (buffer.drop 2 ++ [l]) ++ ls <:+ (buffer ++ [l]) ++ ls :=
          isSuffix_append_same ls hd
        have h4 := hsuf.trans h3
        simpa using h4
    · have hstep : Monitor.processLine capacity buffer l
          = some (buffer ++ [l]) := by
        unfold Monitor.processLine
        rw [if_neg hov]
      obtain ⟨out, hout, hlen, hsuf⟩ := ih (buffer ++ [l])
        (by rw [List.length_append]; simp; omega)
      refine ⟨out, ?_, hlen, ?_⟩
      · show (match Monitor.processLine capacity buffer l with
          | none => none
          | some b => Monitor.processLines capacity b ls) = some out
        rw [hstep]
        exact hout
      · simpa using hsuf

/-- C3 counterexample: with capacity 2, after the third processed line the
history buffer holds only the newest line — the overflow step evicted two
entries, not one, so the buffer is `["c"]` and not the most-recent-two
`["b", "c"]` that single-entry eviction would leave. -/
theorem history_two_evicted_cex :
    Monitor.processLines 2 [] ["a", "b", "c"] = some ["c"] ∧
    (["c"] : List String) ≠ ["b", "c"] := by
  constructor
  · rfl
  · decide

/-- C3 (amended): whenever a scanned line is appended to a history buffer
already holding capacity-many (or more) lines, with capacity ≥ 2, exactly
TWO entries — the two oldest — are evicted (`append(buffer[2:], line)`);
after every processed line the buffer holds a suffix of the scanned lines
in order and its length never exceeds the configured capacity. -/
theorem history_eviction_amended (capacity : Nat) (h2 : 2 ≤ capacity) :
    (∀ (buffer : List String) (line : String), capacity ≤ buffer.length →
      Monitor.processLine capacity buffer line
        = some (buffer.drop 2 ++ [line])) ∧
    (∀ lines : List String, ∃ out,
      Monitor.processLines capacity [] lines = some out ∧
      out.length ≤ capacity ∧ out <:+ lines) := by
  constructor
  · intro buffer line hov
    unfold Monitor.processLine
    rw [if_pos hov, if_neg (by omega)]
  · intro lines
    obtain ⟨out, hout, hlen, hsuf⟩ := processLines_inv capacity h2 lines []
      (by simp)
    exact ⟨out, hout, hlen, by simpa using hsuf⟩

/-- Witness for C3's amended theorem: a full capacity-2 buffer evicts its
two oldest entries on the next line. -/
theorem history_eviction_amended_witness :
    Monitor.processLine 2 ["a", "b"] "c" = some (["a", "b"].drop 2 ++ ["c"]) :=
  (history_eviction_amended 2 (by decide)).1 ["a", "b"] "c" (by decide)

/-- C10: line processing is total whenever the configured history capacity
is at least 2 — the eviction slice `buffer[2:]` is then always in bounds —
while with a capacity of 1 processing the second line of a stream performs
an out-of-range slice, a panic (modelled as `none`). -/
theorem history_capacity_totality (capacity : Nat) (hcap : 2 ≤ capacity)
    (lines : List String) :
    (Monitor.processLines capacity [] lines).isSome = true ∧
    (∀ l1 l2 : String, Monitor.processLines 1 [] [l1, l2] = none) := by
  constructor
  · obtain ⟨out, hout, -, -⟩ := processLines_inv capacity hcap lines [] (by simp)
    rw [hout]
    rfl
  · intro l1 l2
    rfl

/-- Witness for C10 at capacity 2 with three lines. -/
theorem history_capacity_totality_witness :
    (Monitor.processLines 2 [] ["x", "y", "z"]).isSome = true ∧
    (∀ l1 l2 : String, Monitor.processLines 1 [] [l1, l2] = none) :=
  history_capacity_totality 2 (by decide) ["x", "y", "z"]

end Monny

namespace Monny

/-! ### Claim C7: the rule-rate predicate -/

/-- C7: for every match list `L`, quantity `q` and non-negative period `p`,
`calcAlertRate(L, q, p)` returns true iff either `p > 0` and at least `q`
entries of `L` have timestamps within `p` of now (`now − t ≤ p`), or
`p = 0` and `|L| ≥ q`. -/
theorem calc_alert_rate_iff (L : List Monitor.RuleMatch) (q p now : Int)
    (hp : 0 ≤ p) :
    Monitor.calcAlertRate L q p now = true ↔
      ((0 < p ∧ q ≤ (L.countP (fun m => decide (now - m.time ≤ p)) : Int)) ∨
       (p = 0 ∧ q ≤ (L.length : Int))) := by
  simp only [Monitor.calcAlertRate]
  by_cases hp0 : 0 < p
  · rw [if_pos hp0]
    constructor
    · intro h
      refine Or.inl ⟨hp0, ?_⟩
      by_contra hq
      rw [if_neg hq] at h
      exact Bool.false_ne_true h
    · rintro (⟨-, hq⟩ | ⟨hz, -⟩)
      · rw [if_pos hq]
      · omega
  · have hz : p = 0 := by omega
    subst hz
    rw [if_neg hp0]
    constructor
    · intro h
      refine Or.inr ⟨rfl, ?_⟩
      by_contra hq
      rw [if_neg hq] at h
      exact Bool.false_ne_true h
    · rintro (⟨h0, -⟩ | ⟨-, hq⟩)
      · exact absurd h0 hp0
      · rw [if_pos hq]

/-- Witness for C7: matches at times 0 and 8, quantity 1, period 5,
now 10 — only the match at time 8 is within the period, and the rate
trips. -/
theorem calc_alert_rate_iff_witness :
    Monitor.calcAlertRate [⟨0, "e", []⟩, ⟨8, "e", []⟩] 1 5 10 = true :=
  (calc_alert_rate_iff [⟨0, "e", []⟩, ⟨8, "e", []⟩] 1 5 10 (by decide)).mpr
    (Or.inl ⟨by decide, by decide⟩)

/-! ### Claim C2: the Timeout handler -/

/-- C2 (code bug): `handler.Timeout` evaluated with start time 0 and the
kill timer firing at 200 ms (2·10⁸ ns): it marks `killed = true`, sets
`kill_reason = Timeout` and dispatches exactly one `Killed` report as
claimed, but records `Duration = Start.Sub(Finish) = −200 ms` — the
negation of the specified non-negative `finish − start ≈ 200 ms` (every
sibling handler computes `Finish.Sub(Start)`). -/
theorem timeout_negative_duration :
    (Monitor.timeoutHandler Monitor.zeroCommand 200000000).1.killed = true ∧
    (Monitor.timeoutHandler Monitor.zeroCommand 200000000).1.killReason
      = Monitor.KillReason.timeout ∧
    (Monitor.timeoutHandler Monitor.zeroCommand 200000000).2
      = [Monitor.ReportReason.killed] ∧
    (Monitor.timeoutHandler Monitor.zeroCommand 200000000).1.duration
      = -200000000 := by
  refine ⟨rfl, rfl, rfl, by decide⟩

/-! ### Claim C1: terminal report dispatch in the Finished handler -/

/-- Dispatches of the `handleFileCreation` loop: one `FileNotCreated` per
missing file, in order. -/
theorem handleFileCreationLoop_dispatches (fs : String → Monitor.StatResult) :
    ∀ (files : List String) (c : Monitor.Command),
      (Monitor.handleFileCreationLoop fs c files).2
        = List.replicate (files.countP (fun f => (fs f).isNotExist))
            Monitor.ReportReason.fileNotCreated := by
  intro files
  induction files with
  | nil => intro c; rfl
  | cons f rest ih =>
    intro c
    cases hf : fs f <;>
      simp [Monitor.handleFileCreationLoop, hf, ih, List.countP_cons,
        Monitor.StatResult.isNotExist, List.replicate_succ]

/-- C1 (amended): `Finished` always dispatches one `Success`-or-`Failure`
report chosen from the exit status, followed by one `FileNotCreated`
report per missing `creates` file (none when nothing is missing).  A run
whose child exits while `k > 0` creates-files are missing therefore
dispatches `1 + k` terminal reports — the `Success`/`Failure` one
included — not a single `FileNotCreated`. -/
theorem finished_dispatch_characterization
    (fs : String → Monitor.StatResult) (c : Monitor.Command)
    (exitSuccess : Bool) (ws : Option Int) (now : Int) :
    (Monitor.finished fs c exitSuccess ws now).2
      = (if exitSuccess then [Monitor.ReportReason.success]
         else [Monitor.ReportReason.failure])
        ++ List.replicate
            (c.config.creates.countP (fun f => (fs f).isNotExist))
            Monitor.ReportReason.fileNotCreated := by
  cases exitSuccess <;> cases ws <;>
    simp [Monitor.finished, Monitor.handleFileCreation,
      handleFileCreationLoop_dispatches]

/-- C1 counterexample: with the child exiting successfully and the single
`creates` file missing, `Finished` dispatches the two terminal reports
`[Success, FileNotCreated]` — not exactly one, and `Success` is among
them. -/
theorem finished_two_terminal_reports_cex :
    (Monitor.finished (fun _ => .notExist)
        { Monitor.zeroCommand with config := ⟨["testfile.test"]⟩ }
        true none 5).2
      = [Monitor.ReportReason.success, Monitor.ReportReason.fileNotCreated] ∧
    [Monitor.ReportReason.success, Monitor.ReportReason.fileNotCreated]
      ≠ [Monitor.ReportReason.fileNotCreated] ∧
    Monitor.ReportReason.success
      ∈ [Monitor.ReportReason.success, Monitor.ReportReason.fileNotCreated] := by
  refine ⟨rfl, by decide, by decide⟩

end Monny

namespace Monny

/-! ### Claim C8: windowed-counter history -/

/-- The counter component of an instrumented `Add` is exactly the source
`WindowedCounter.add`. -/
theorem ghost_add_wc (g : Metric.GhostWC) (now : Int) (i : Nat) :
    (g.add now i).wc = g.wc.add now i := by
  simp only [Metric.GhostWC.add]
  split <;> rfl

/-- The counter component of an instrumented run is exactly the source
run. -/
theorem runGhost_wc (ops : List (Int × Nat)) :
    ∀ g : Metric.GhostWC,
      (Metric.runGhost g ops).wc = Metric.runWindowed g.wc ops := by
  induction ops with
  | nil => intro g; rfl
  | cons op rest ih =>
    intro g
    show (Metric.runGhost (g.add op.1 op.2) rest).wc = _
    rw [ih, ghost_add_wc]
    rfl

/-- Branch equations of the instrumented `Add`: the still-open (or
zero-duration) window only bumps the current ghost count; a closed window
rotates, pushing its ghost count into history and starting the new window
with this first observation. -/
theorem ghost_add_eq (g : Metric.GhostWC) (now : Int) (i : Nat) :
    ((now < g.wc.current.start + g.wc.current.duration
        ∨ g.wc.current.duration = 0) →
      g.add now i
        = { wc := { g.wc with current := g.wc.current.add i },
            histObs := g.histObs, curObs := g.curObs + 1 }) ∧
    (¬ (now < g.wc.current.start + g.wc.current.duration
        ∨ g.wc.current.duration = 0) →
      g.add now i
        = { wc := { hist := g.wc.hist ++ [g.wc.current],
                    current := Metric.Counter.add ⟨now, g.wc.current.duration, 0⟩ i },
            histObs := g.histObs ++ [g.curObs], curObs := 1 }) := by
  constructor
  · intro h
    unfold Metric.GhostWC.add Metric.WindowedCounter.add
    rw [if_pos h, if_pos h]
  · intro h
    unfold Metric.GhostWC.add Metric.WindowedCounter.add
    rw [if_neg h, if_neg h]

/-- Inductive invariant of the instrumented windowed counter: the ghost
counts stay aligned with the recorded history; every history window beyond
the first received at least one observation; once history is nonempty the
current window has received at least one observation. -/
theorem ghost_inv (ops : List (Int × Nat)) :
    ∀ g : Metric.GhostWC,
      g.histObs.length = g.wc.hist.length →
      (∀ o ∈ g.histObs.drop 1, 1 ≤ o) →
      (g.wc.hist ≠ [] → 1 ≤ g.curObs) →
      (Metric.runGhost g ops).histObs.length
          = (Metric.runGhost g ops).wc.hist.length ∧
        (∀ o ∈ (Metric.runGhost g ops).histObs.drop 1, 1 ≤ o) ∧
        ((Metric.runGhost g ops).wc.hist ≠ []
          → 1 ≤ (Metric.runGhost g ops).curObs) := by
  induction ops with
  | nil =>
    intro g h1 h2 h3
    exact ⟨h1, h2, h3⟩
  | cons op rest ih =>
    intro g h1 h2 h3
    have hstep : Metric.runGhost g (op :: rest)
        = Metric.runGhost (g.add op.1 op.2) rest := rfl
    rw [hstep]
    by_cases hc : op.1 < g.wc.current.start + g.wc.current.duration
        ∨ g.wc.current.duration = 0
    · rw [(ghost_add_eq g op.1 op.2).1 hc]
      apply ih
      · simpa using h1
      · simpa using h2
      · intro hne
        show 1 ≤ g.curObs + 1
        omega
    · rw [(ghost_add_eq g op.1 op.2).2 hc]
      apply ih
      · simp [h1]
      · show ∀ o ∈ (g.histObs ++ [g.curObs]).drop 1, 1 ≤ o
        cases hobs : g.histObs with
        | nil =>
          simp
        | cons o0 os =>
          intro o ho
          simp only [List.cons_append, List.drop_succ_cons, List.drop_zero] at ho
          rcases List.mem_append.1 ho with hos | hcur
          · exact h2 o (by rw [hobs]; simpa using hos)
          · have hne : g.wc.hist ≠ [] := by
              have hl : g.wc.hist.length = os.length + 1 := by
                rw [← h1, hobs]; simp
              intro hnil
              rw [hnil] at hl
              simp at hl
            have := h3 hne
            simp only [List.mem_singleton] at hcur
            omega
      · intro _
        show 1 ≤ 1
        omega

/-- C8 counterexample: a windowed counter created at time 0 with a window
of 10 receives its first `Add` only at time 11, after the initial window
closed — the untouched initial window (value 0, ghost observation count 0)
is rotated into history, so a window with no observations IS recorded. -/
theorem windowed_counter_empty_window_cex :
    (Metric.runGhost ⟨Metric.newWindowedCounter 0 10, [], 0⟩ [(11, 1)]).wc.hist
      = [⟨0, 10, 0⟩] ∧
    (Metric.runGhost ⟨Metric.newWindowedCounter 0 10, [], 0⟩ [(11, 1)]).histObs
      = [0] ∧
    ¬ (∀ o ∈ (Metric.runGhost ⟨Metric.newWindowedCounter 0 10, [], 0⟩
        [(11, 1)]).histObs, 1 ≤ o) := by
  refine ⟨by decide, by decide, by decide⟩

/-- C8 (amended): in every run of a fresh windowed counter, every counter
recorded in the history of closed windows EXCEPT possibly the oldest entry
received at least one observation during its window; only the initial
window can enter history untouched (when its first `add` arrives after it
closed).  The instrumented run used to count observations erases to the
source `WindowedCounter` run (first conjunct), and its ghost counts stay
aligned with the recorded history (second conjunct). -/
theorem windowed_counter_history_amended (t0 d : Int)
    (ops : List (Int × Nat)) :
    (Metric.runGhost ⟨Metric.newWindowedCounter t0 d, [], 0⟩ ops).wc
      = Metric.runWindowed (Metric.newWindowedCounter t0 d) ops ∧
    (Metric.runGhost ⟨Metric.newWindowedCounter t0 d, [], 0⟩ ops).histObs.length
      = (Metric.runGhost ⟨Metric.newWindowedCounter t0 d, [], 0⟩ ops).wc.hist.length ∧
    (∀ o ∈ (Metric.runGhost ⟨Metric.newWindowedCounter t0 d, [], 0⟩
        ops).histObs.drop 1, 1 ≤ o) := by
  obtain ⟨ha, hb, -⟩ := ghost_inv ops ⟨Metric.newWindowedCounter t0 d, [], 0⟩
    (by simp [Metric.newWindowedCounter]) (by simp) (by simp [Metric.newWindowedCounter])
  exact ⟨runGhost_wc ops _, ha, hb⟩

end Monny

namespace Monny

/-! ### Claims C5 and C6: the EWMA estimator -/

/-- A `Record` call on an alarmed estimator (trip state) leaves the FSM
untouched: no case of the state switch matches `UCLTrip`/`LCLTrip`, so the
call only appends to the series. -/
theorem record_trip_preserves_fsm {σ : Type} (sr : Stat.SeriesRecorder σ)
    (pdf : Stat.PDF) (sq : ℚ → ℚ) (e : Stat.TestStatistic σ) (o : ℚ)
    (h : Stat.HasAlarmed e = true) :
    (Stat.record sr pdf sq e o).1.fsm = e.fsm := by
  have h' : e.fsm.current = Stat.UCLTrip ∨ e.fsm.current = Stat.LCLTrip :=
    of_decide_eq_true h
  obtain ⟨lam, kk, lim, ser, m, cur⟩ := e
  simp only at h'
  cases htr : pdf.transform o with
  | none =>
    simp [Stat.record, htr]
  | some ob =>
    rcases h' with h' | h' <;>
      simp [Stat.record, htr, h', Stat.UCLTrip, Stat.LCLTrip, Stat.Reset,
        Stat.TestingUCL, Stat.TestingLCL, Stat.UCLInitial, Stat.LCLInitial]

/-- C6: once `has_alarmed()` is true (FSM in `UCLTrip` or `LCLTrip`), any
further sequence of `record` calls leaves it true — `Record` never leaves
a trip state, which only an explicit `Transition` call can change. -/
theorem estimator_alarm_latch {σ : Type} (sr : Stat.SeriesRecorder σ)
    (pdf : Stat.PDF) (sq : ℚ → ℚ) (e : Stat.TestStatistic σ) (os : List ℚ)
    (h : Stat.HasAlarmed e = true) :
    Stat.HasAlarmed (Stat.recordMany sr pdf sq e os) = true := by
  induction os generalizing e with
  | nil => exact h
  | cons o os ih =>
    have hstep : Stat.recordMany sr pdf sq e (o :: os)
        = Stat.recordMany sr pdf sq (Stat.record sr pdf sq e o).1 os := rfl
    rw [hstep]
    apply ih
    show Stat.HasAlarmed (Stat.record sr pdf sq e o).1 = true
    unfold Stat.HasAlarmed
    rw [record_trip_preserves_fsm sr pdf sq e o h]
    exact h

/-- Witness for C6: an alarmed estimator over a concrete `metric.Series`
stays alarmed after recording three more observations. -/
theorem estimator_alarm_latch_witness :
    Stat.HasAlarmed (Stat.recordMany Stat.seriesRecorder
      ⟨fun x => some x, fun _ => 0, fun _ _ => 0⟩ (fun x => x)
      { lambda := 1/4, k := ⟨none⟩, limit := 0,
        series := ⟨0, List.replicate 2 0⟩,
        fsm := Stat.estMachineAt Stat.UCLTrip, current := 0 }
      [1, 2, 3]) = true :=
  estimator_alarm_latch Stat.seriesRecorder
    ⟨fun x => some x, fun _ => 0, fun _ _ => 0⟩ (fun x => x)
    { lambda := 1/4, k := ⟨none⟩, limit := 0,
      series := ⟨0, List.replicate 2 0⟩,
      fsm := Stat.estMachineAt Stat.UCLTrip, current := 0 }
    [1, 2, 3] (by decide)

end Monny

namespace Monny
/-- C5: for every estimator, the control limit is published — together with
the transition out of `UCLInitial` (resp. `LCLInitial`) into `TestingUCL`
(resp. `TestingLCL`) — on exactly those `record` calls after which the
bootstrap series holds at least capacity-many observations whose MLE mean
and MLE variance are both strictly positive; otherwise no limit is set
(the `limit` field is unchanged) and the state remains in the initial
phase. -/
theorem estimator_limit_gating {σ : Type} (sr : Stat.SeriesRecorder σ)
    (pdf : Stat.PDF) (sq : ℚ → ℚ) (e : Stat.TestStatistic σ) (o ob : ℚ)
    (hob : pdf.transform o = some ob) :
    ((e.fsm = Stat.estMachineAt Stat.UCLInitial) →
      (let s1 := sr.record e.series ob
       let vals := sr.values s1
       let mn := pdf.mean vals
       let vr := pdf.variance vals mn
       ((sr.count s1 ≥ sr.capacity s1 ∧ mn > 0 ∧ vr > 0) →
          (Stat.record sr pdf sq e o).1.fsm.current = Stat.TestingUCL ∧
          (Stat.record sr pdf sq e o).1.limit
            = Stat.calculateLimit sq mn vr e.lambda e.k 1 ∧
          (Stat.record sr pdf sq e o).1.current = mn) ∧
       (¬ (sr.count s1 ≥ sr.capacity s1 ∧ mn > 0 ∧ vr > 0) →
          (Stat.record sr pdf sq e o).1.fsm.current = Stat.UCLInitial ∧
          (Stat.record sr pdf sq e o).1.limit = e.limit))) ∧
    ((e.fsm = Stat.estMachineAt Stat.LCLInitial) →
      (let s1 := sr.record e.series ob
       let vals := sr.values s1
       let mn := pdf.mean vals
       let vr := pdf.variance vals mn
       ((sr.count s1 ≥ sr.capacity s1 ∧ mn > 0 ∧ vr > 0) →
          (Stat.record sr pdf sq e o).1.fsm.current = Stat.TestingLCL ∧
          (Stat.record sr pdf sq e o).1.limit
            = Stat.calculateLimit sq mn vr e.lambda e.k (-1) ∧
          (Stat.record sr pdf sq e o).1.current = mn) ∧
       (¬ (sr.count s1 ≥ sr.capacity s1 ∧ mn > 0 ∧ vr > 0) →
          (Stat.record sr pdf sq e o).1.fsm.current = Stat.LCLInitial ∧
          (Stat.record sr pdf sq e o).1.limit = e.limit))) := by
  obtain ⟨lam, kk, lim, ser, m, cur⟩ := e
  constructor
  · intro hm
    simp only at hm
    subst hm
    simp only [Stat.record, hob, Stat.uclInitialStep]
    rw [if_neg (by decide :
          ¬ ((Stat.estMachineAt Stat.UCLInitial).current = Stat.Reset)),
      if_neg (by decide :
          ¬ ((Stat.estMachineAt Stat.UCLInitial).current = Stat.TestingUCL)),
      if_neg (by decide :
          ¬ ((Stat.estMachineAt Stat.UCLInitial).current = Stat.TestingLCL)),
      if_pos (by decide :
          (Stat.estMachineAt Stat.UCLInitial).current = Stat.UCLInitial)]
    have htr : (Stat.estMachineAt Stat.UCLInitial).transition Stat.TestingUCL
        = ({ current := Stat.TestingUCL, initial := Stat.UCLInitial,
             edges := Stat.estimatorEdges, stopOnError := false,
             stopped := false }, none) := by decide
    by_cases hcount : sr.count (sr.record ser ob) ≥ sr.capacity (sr.record ser ob)
    · by_cases hpos : pdf.mean (sr.values (sr.record ser ob)) > 0 ∧
        pdf.variance (sr.values (sr.record ser ob))
          (pdf.mean (sr.values (sr.record ser ob))) > 0
      · rw [if_pos hcount, if_pos hpos, htr]
        exact ⟨fun _ => ⟨rfl, rfl, rfl⟩, fun hng =>
          absurd ⟨hcount, hpos.1, hpos.2⟩ hng⟩
      · rw [if_pos hcount, if_neg hpos]
        exact ⟨fun hg => absurd ⟨hg.2.1, hg.2.2⟩ hpos, fun _ => ⟨rfl, rfl⟩⟩
    · rw [if_neg hcount]
      exact ⟨fun hg => absurd hg.1 hcount, fun _ => ⟨rfl, rfl⟩⟩
  · intro hm
    simp only at hm
    subst hm
    simp only [Stat.record, hob, Stat.lclInitialStep]
    rw [if_neg (by decide :
          ¬ ((Stat.estMachineAt Stat.LCLInitial).current = Stat.Reset)),
      if_neg (by decide :
          ¬ ((Stat.estMachineAt Stat.LCLInitial).current = Stat.TestingUCL)),
      if_neg (by decide :
          ¬ ((Stat.estMachineAt Stat.LCLInitial).current = Stat.TestingLCL)),
      if_neg (by decide :
          ¬ ((Stat.estMachineAt Stat.LCLInitial).current = Stat.UCLInitial)),
      if_pos (by decide :
          (Stat.estMachineAt Stat.LCLInitial).current = Stat.LCLInitial)]
    have htr : (Stat.estMachineAt Stat.LCLInitial).transition Stat.TestingLCL
        = ({ current := Stat.TestingLCL, initial := Stat.UCLInitial,
             edges := Stat.estimatorEdges, stopOnError := false,
             stopped := false }, none) := by decide
    by_cases hcount : sr.count (sr.record ser ob) ≥ sr.capacity (sr.record ser ob)
    · by_cases hpos : pdf.mean (sr.values (sr.record ser ob)) > 0 ∧
        pdf.variance (sr.values (sr.record ser ob))
          (pdf.mean (sr.values (sr.record ser ob))) > 0
      · rw [if_pos hcount, if_pos hpos, htr]
        exact ⟨fun _ => ⟨rfl, rfl, rfl⟩, fun hng =>
          absurd ⟨hcount, hpos.1, hpos.2⟩ hng⟩
      · rw [if_pos hcount, if_neg hpos]
        exact ⟨fun hg => absurd ⟨hg.2.1, hg.2.2⟩ hpos, fun _ => ⟨rfl, rfl⟩⟩
    · rw [if_neg hcount]
      exact ⟨fun hg => absurd hg.1 hcount, fun _ => ⟨rfl, rfl⟩⟩

end Monny

namespace Monny

/-- Witness for C5: a capacity-1 `metric.Series` estimator in `UCLInitial`
with a PDF whose mean and variance are 1 — recording one observation fills
the bootstrap series, publishes the limit `μ + k·√σ²ₑ = 1 + 1·1 = 2` and
moves the FSM to `TestingUCL`. -/
theorem estimator_limit_gating_witness :
    (Stat.record Stat.seriesRecorder
        ⟨fun x => some x, fun _ => 1, fun _ _ => 1⟩ (fun x => x)
        { lambda := 1, k := ⟨some 1⟩, limit := 0,
          series := ⟨0, List.replicate 1 0⟩,
          fsm := Stat.estMachineAt Stat.UCLInitial, current := 0 }
        5).1.fsm.current = Stat.TestingUCL ∧
    (Stat.record Stat.seriesRecorder
        ⟨fun x => some x, fun _ => 1, fun _ _ => 1⟩ (fun x => x)
        { lambda := 1, k := ⟨some 1⟩, limit := 0,
          series := ⟨0, List.replicate 1 0⟩,
          fsm := Stat.estMachineAt Stat.UCLInitial, current := 0 }
        5).1.limit = 2 := by
  have h := ((estimator_limit_gating Stat.seriesRecorder
      ⟨fun x => some x, fun _ => 1, fun _ _ => 1⟩ (fun x => x)
      { lambda := 1, k := ⟨some 1⟩, limit := 0,
        series := ⟨0, List.replicate 1 0⟩,
        fsm := Stat.estMachineAt Stat.UCLInitial, current := 0 }
      5 5 rfl).1 rfl).1 (by refine ⟨by decide, by norm_num, by norm_num⟩)
  refine ⟨h.1, ?_⟩
  rw [h.2.1]
  show Stat.calculateLimit (fun x => x) 1 1 1 ⟨some 1⟩ 1 = 2
  unfold Stat.calculateLimit
  norm_num

end Monny
